import Mathlib

/-!
Shallow embedding of the QuantConnect bull-spread strategy
(`src/main.py`, `src/SymbolManager.py`).

Modelling conventions:
* Prices are exact rationals (`ℚ`); the Python source uses floats, but none
  of the properties verified here depend on float rounding artefacts.
  Python's `round(x, 2)` is modelled by `round2` below (round to nearest
  cent, halves up; on every input arising in these claims the float
  computation in the source lands strictly off the tie so the two agree).
* Symbols are their string representations (`str(symbol)` in the source).
* The broker (`self.limit_order`, `self.market_order`,
  `self.transactions.cancel_open_orders`) is modelled by a list of emitted
  `BrokerAction`s; the handlers return `state × actions`.
* The portfolio (`self.portfolio[sym].quantity` / `.invested`) is an
  external environment, modelled as a function `String → ℤ`
  (`invested` ⟺ quantity ≠ 0).
* Python `dict`s are association lists whose erase removes every entry for
  the key (a dict holds at most one); Python `set`s are `Finset String`.
-/

namespace CSP

/-- Option right of a contract (`OptionRight.CALL` / `OptionRight.PUT`). -/
inductive OptRight where
  | call
  | put
deriving DecidableEq, Repr

/-- Direction of an order (`OrderDirection.BUY` / `OrderDirection.SELL`). -/
inductive OrderDirection where
  | buy
  | sell
deriving DecidableEq, Repr

/-- Status of an order event (`OrderStatus`).  `submitted` stands for every
status other than FILLED / CANCELED / INVALID. -/
inductive OrderStat where
  | filled
  | canceled
  | invalid
  | submitted
deriving DecidableEq, Repr

/-- An order as the fill handler sees it
(`self.transactions.get_order_by_id(...)`): symbol, the symbol's option
right (`order.symbol.id.option_right`), direction, fill price, tag. -/
structure Order where
  symbol : String
  right : OptRight
  direction : OrderDirection
  price : ℚ
  tag : String
deriving DecidableEq, Repr

/-- Value stored in `self.open_spreads[short_leg_symbol_str]`:
`{'net_cost': ..., 'long_leg_symbol_str': ...}`. -/
structure SpreadData where
  net_cost : ℚ
  long_leg_symbol_str : String
deriving DecidableEq, Repr

/-- The algorithm's ledger state (`main.py` lines 58-61). -/
structure AlgoState where
  open_spreads : List (String × SpreadData)
  pending_entry_symbols : Finset String
  pending_fills : List (String × Order)
  last_trade_date : Option ℕ
deriving DecidableEq

/-- Requests issued to the broker. -/
inductive BrokerAction where
  | limitOrder (symbol : String) (quantity : ℤ) (limitPrice : ℚ) (tag : String)
  | marketOrder (symbol : String) (quantity : ℤ) (tag : String)
  | cancelOpenOrders (symbol : String)
deriving DecidableEq, Repr

/-- Holdings environment: quantity currently held per symbol
(`self.portfolio[sym].quantity`; `invested` ⟺ quantity ≠ 0). -/
def Portfolio : Type := String → ℤ

/-- Configuration surface of `initialize` (`main.py` lines 34-44). -/
structure Config where
  max_concurrent_trades : ℕ
  allocation_per_trade : ℚ
  profit_target_percentage : ℚ
  spread_width : ℚ
  roll_days_trigger : ℤ
  adx_trend_threshold : ℚ
deriving DecidableEq

/-- Dictionary lookup `d[k]` / `d.get(k)`. -/
def lookupKey {α : Type} (k : String) : List (String × α) → Option α
  | [] => none
  | p :: t => if p.1 = k then some p.2 else lookupKey k t

/-- Dictionary deletion `del d[k]` (removes every entry for `k`; a Python
dict holds at most one). -/
def eraseKey {α : Type} (k : String) (l : List (String × α)) : List (String × α) :=
  l.filter (fun p => ¬ (p.1 = k))

/-- Dictionary assignment `d[k] = v`. -/
def insertKey {α : Type} (k : String) (v : α) (l : List (String × α)) :
    List (String × α) :=
  (k, v) :: eraseKey k l

/-- Python's `round(x, 2)` on the exact rational value. -/
def round2 (q : ℚ) : ℚ := (round (q * 100) : ℤ) / 100

/-- `liquidate_spread` (`main.py` lines 219-231).  It mutates no ledger
state: it only submits market orders for the two legs when the key is in
`open_spreads`, and cancels resting orders on the short leg when the key
is in `pending_entry_symbols`. -/
def liquidate_spread (pf : Portfolio) (st : AlgoState) (short_leg_symbol_str : String) :
    List BrokerAction :=
  (match lookupKey short_leg_symbol_str st.open_spreads with
   | some trade_data =>
       (if pf short_leg_symbol_str ≠ 0 then
          [BrokerAction.marketOrder short_leg_symbol_str
            (-(pf short_leg_symbol_str)) short_leg_symbol_str]
        else []) ++
       (if pf trade_data.long_leg_symbol_str ≠ 0 then
          [BrokerAction.marketOrder trade_data.long_leg_symbol_str
            (-(pf trade_data.long_leg_symbol_str)) short_leg_symbol_str]
        else [])
   | none => []) ++
  (if short_leg_symbol_str ∈ st.pending_entry_symbols then
     [BrokerAction.cancelOpenOrders short_leg_symbol_str]
   else [])

/-- `set_spread_profit_taker` (`main.py` lines 178-203). -/
def set_spread_profit_taker (cfg : Config) (pf : Portfolio) (st : AlgoState)
    (short_leg_symbol_str : String) : List BrokerAction :=
  match lookupKey short_leg_symbol_str st.open_spreads with
  | none => []
  | some trade_data =>
      let long_s := trade_data.long_leg_symbol_str
      let net_cost := trade_data.net_cost
      if net_cost < 0 then
        -- Credit spread
        let net_credit := -net_cost
        let ptd0 := round2 (net_credit * (1 - cfg.profit_target_percentage))
        let profit_target_debit := if ptd0 < 1/100 then 1/100 else ptd0
        [BrokerAction.limitOrder short_leg_symbol_str
           (-(pf short_leg_symbol_str)) profit_target_debit short_leg_symbol_str,
         BrokerAction.limitOrder long_s (-(pf long_s)) (1/100) short_leg_symbol_str]
      else
        -- Debit spread
        let max_profit := cfg.spread_width - net_cost
        let target_credit := round2 (net_cost + max_profit * cfg.profit_target_percentage)
        [BrokerAction.limitOrder short_leg_symbol_str
           (-(pf short_leg_symbol_str)) target_credit short_leg_symbol_str,
         BrokerAction.limitOrder long_s (-(pf long_s)) (1/100) short_leg_symbol_str]

/-- `handle_spread_entry_fill` (`main.py` lines 133-176).  `today` is
`self.time.date()`, abstracted to a day number. -/
def handle_spread_entry_fill (cfg : Config) (pf : Portfolio) (today : ℕ)
    (st : AlgoState) (order : Order) : AlgoState × List BrokerAction :=
  let tag := order.tag
  match lookupKey tag st.pending_fills with
  | some first_leg_order =>
      let st1 : AlgoState := { st with pending_fills := eraseKey tag st.pending_fills }
      if first_leg_order.right = OptRight.call then
        let long_order := if order.direction = OrderDirection.buy then order else first_leg_order
        let short_order := if order.direction = OrderDirection.sell then order else first_leg_order
        let net_debit := long_order.price - short_order.price
        let st2 : AlgoState :=
          { st1 with
            open_spreads := insertKey short_order.symbol
              ⟨net_debit, long_order.symbol⟩ st1.open_spreads }
        let st3 : AlgoState :=
          { st2 with
            pending_entry_symbols := st2.pending_entry_symbols.erase tag,
            last_trade_date := some today }
        (st3, set_spread_profit_taker cfg pf st3 short_order.symbol)
      else
        -- Put spread
        let short_order := if order.direction = OrderDirection.sell then order else first_leg_order
        let long_order := if order.direction = OrderDirection.buy then order else first_leg_order
        let net_credit := short_order.price - long_order.price
        if net_credit ≤ 0 then
          (st1, liquidate_spread pf st1 short_order.symbol)
        else
          let st2 : AlgoState :=
            { st1 with
              open_spreads := insertKey short_order.symbol
                ⟨-net_credit, long_order.symbol⟩ st1.open_spreads }
          let st3 : AlgoState :=
            { st2 with
              pending_entry_symbols := st2.pending_entry_symbols.erase tag,
              last_trade_date := some today }
          (st3, set_spread_profit_taker cfg pf st3 short_order.symbol)
  | none =>
      ({ st with pending_fills := insertKey tag order st.pending_fills }, [])

/-- `handle_spread_exit_fill` (`main.py` lines 205-217). -/
def handle_spread_exit_fill (pf : Portfolio) (st : AlgoState)
    (short_leg_symbol_str : String) : AlgoState × List BrokerAction :=
  match lookupKey short_leg_symbol_str st.open_spreads with
  | none => (st, [])
  | some trade_data =>
      if pf short_leg_symbol_str = 0 ∧ pf trade_data.long_leg_symbol_str = 0 then
        ({ st with open_spreads := eraseKey short_leg_symbol_str st.open_spreads },
         [BrokerAction.cancelOpenOrders short_leg_symbol_str,
          BrokerAction.cancelOpenOrders trade_data.long_leg_symbol_str])
      else (st, [])

/-- An inbound order event (`on_order_event`'s view after resolving the
order id: the order itself plus the event status). -/
structure OrderEvent where
  ord : Order
  status : OrderStat
deriving DecidableEq, Repr

/-- `on_order_event` (`main.py` lines 109-131).  The `order is None` guard
is dropped (the event carries its order); the empty-tag guard is kept. -/
def on_order_event (cfg : Config) (pf : Portfolio) (today : ℕ)
    (st : AlgoState) (ev : OrderEvent) : AlgoState × List BrokerAction :=
  let tag := ev.ord.tag
  if tag = "" then (st, [])
  else if ev.status = OrderStat.canceled ∨ ev.status = OrderStat.invalid then
    let pes := if tag ∈ st.pending_entry_symbols then
                 st.pending_entry_symbols.erase tag
               else st.pending_entry_symbols
    let pfills := if (lookupKey tag st.pending_fills).isSome then
                    eraseKey tag st.pending_fills
                  else st.pending_fills
    ({ st with pending_entry_symbols := pes, pending_fills := pfills }, [])
  else if ev.status ≠ OrderStat.filled then (st, [])
  else if tag ∈ st.pending_entry_symbols then
    handle_spread_entry_fill cfg pf today st ev.ord
  else if (lookupKey tag st.open_spreads).isSome then
    handle_spread_exit_fill pf st tag
  else (st, [])

/-- An option contract as seen in the option chain
(`SymbolManager.py`): symbol string, right, strike, expiry (day number),
quoted bid and ask. -/
structure Contract where
  symbol : String
  right : OptRight
  strike : ℚ
  expiry : ℕ
  bid_price : ℚ
  ask_price : ℚ
deriving DecidableEq, Repr

/-- One element of `candidate_spreads`:
`{'short': short_leg, 'long': long_leg, 'strike': short_leg.strike}`. -/
structure Cand where
  short : Contract
  long : Contract
  strike : ℚ
deriving DecidableEq, Repr

/-- One iteration of the `for short_leg in puts` loop of
`find_best_bull_put_spread` (`SymbolManager.py` lines 60-72): skip a short
leg with non-positive bid, pair it with the first put at strike
`short.strike - width` and the same expiry, and keep the pair when the
long ask is positive and the net credit `short.bid - long.ask` is at least
`target_credit = 0.5 * width`. -/
def putPair (puts : List Contract) (width : ℚ) (short_leg : Contract) : Option Cand :=
  if short_leg.bid_price ≤ 0 then none
  else
    match (puts.filter (fun c =>
        c.strike = short_leg.strike - width ∧ c.expiry = short_leg.expiry)).head? with
    | none => none
    | some long_leg =>
        if long_leg.ask_price ≤ 0 then none
        else if short_leg.bid_price - long_leg.ask_price ≥ width * (1/2) then
          some ⟨short_leg, long_leg, short_leg.strike⟩
        else none

/-- The `candidate_spreads` list built by `find_best_bull_put_spread`
(`SymbolManager.py` lines 55-72). -/
def putCandidates (option_chain : List Contract) (width : ℚ) : List Cand :=
  let puts := option_chain.filter (fun c => c.right = OptRight.put)
  puts.filterMap (putPair puts width)

/-- `sorted(candidate_spreads, key=strike)[0]` as an option: the earliest
candidate with the minimal strike (Python's sort is stable). -/
def selectLowestStrike : List Cand → Option Cand
  | [] => none
  | c :: t =>
      match selectLowestStrike t with
      | none => some c
      | some b => if b.strike < c.strike then some b else some c

/-- `sorted(candidate_spreads, key=strike, reverse=True)[0]` as an option:
the earliest candidate with the maximal strike. -/
def selectHighestStrike : List Cand → Option Cand
  | [] => none
  | c :: t =>
      match selectHighestStrike t with
      | none => some c
      | some b => if b.strike > c.strike then some b else some c

/-- `find_best_bull_put_spread` (`SymbolManager.py` lines 53-76). -/
def find_best_bull_put_spread (option_chain : List Contract) (width : ℚ) :
    Option Cand :=
  selectLowestStrike (putCandidates option_chain width)

/-- One iteration of the `for short_leg in calls` loop of
`find_best_bull_call_spread` (`SymbolManager.py` lines 85-98): keep the
pair when the net debit `long.ask - short.bid` is strictly positive and at
most `target_debit = 0.5 * width`. -/
def callPair (calls : List Contract) (width : ℚ) (short_leg : Contract) : Option Cand :=
  if short_leg.bid_price ≤ 0 then none
  else
    match (calls.filter (fun c =>
        c.strike = short_leg.strike - width ∧ c.expiry = short_leg.expiry)).head? with
    | none => none
    | some long_leg =>
        if long_leg.ask_price ≤ 0 then none
        else if 0 < long_leg.ask_price - short_leg.bid_price ∧
                long_leg.ask_price - short_leg.bid_price ≤ width * (1/2) then
          some ⟨short_leg, long_leg, short_leg.strike⟩
        else none

/-- The `candidate_spreads` list built by `find_best_bull_call_spread`
(`SymbolManager.py` lines 80-98): the chain is first restricted to calls
strictly in the money (`strike < underlying_price`). -/
def callCandidates (option_chain : List Contract) (underlying_price width : ℚ) :
    List Cand :=
  let calls := option_chain.filter
    (fun c => c.right = OptRight.call ∧ c.strike < underlying_price)
  calls.filterMap (callPair calls width)

/-- `find_best_bull_call_spread` (`SymbolManager.py` lines 78-102). -/
def find_best_bull_call_spread (option_chain : List Contract)
    (underlying_price width : ℚ) : Option Cand :=
  selectHighestStrike (callCandidates option_chain underlying_price width)

/-- `execute_spread_trade` (`SymbolManager.py` lines 104-126).
`int(max_contracts)` truncates toward zero; since the guard ensures
`max_contracts ≥ 1`, this is the floor. -/
def execute_spread_trade (st : AlgoState) (total_portfolio_value : ℚ)
    (short_leg long_leg : Contract) (allocation margin : ℚ) :
    AlgoState × List BrokerAction :=
  if margin ≤ 0 then (st, [])
  else
    let max_contracts := total_portfolio_value * allocation / margin
    if max_contracts < 1 then (st, [])
    else
      let quantity : ℤ := ⌊max_contracts⌋
      let tag := short_leg.symbol
      if tag ∈ st.pending_entry_symbols then (st, [])
      else
        let acts :=
          if short_leg.right = OptRight.call then
            [BrokerAction.limitOrder long_leg.symbol quantity long_leg.ask_price tag,
             BrokerAction.limitOrder short_leg.symbol (-quantity) short_leg.bid_price tag]
          else
            [BrokerAction.limitOrder short_leg.symbol (-quantity) short_leg.bid_price tag,
             BrokerAction.limitOrder long_leg.symbol quantity long_leg.ask_price tag]
        ({ st with pending_entry_symbols := insert tag st.pending_entry_symbols }, acts)

/-- Per-tick market inputs to the entry path, provided by the host
(indicator readiness, ADX value, the chosen manager's hourly trend
alignment, underlying price, option chain, total portfolio value). -/
structure EntryData where
  indicators_ready : Bool
  adx_value : ℚ
  trend_aligned : Bool
  underlying_price : ℚ
  option_chain : Option (List Contract)
  total_portfolio_value : ℚ

/-- `attempt_trade_entry` (`SymbolManager.py` lines 27-51): trend gate,
chain presence, put-credit search with call-debit fallback, then
`execute_spread_trade`. -/
def attempt_trade_entry (cfg : Config) (st : AlgoState) (e : EntryData)
    (allocation margin : ℚ) : AlgoState × List BrokerAction :=
  if ¬ e.trend_aligned then (st, [])
  else
    match e.option_chain with
    | none => (st, [])
    | some oc =>
        match find_best_bull_put_spread oc cfg.spread_width with
        | some best =>
            execute_spread_trade st e.total_portfolio_value best.short best.long
              allocation margin
        | none =>
            match find_best_bull_call_spread oc e.underlying_price cfg.spread_width with
            | some best =>
                execute_spread_trade st e.total_portfolio_value best.short best.long
                  allocation margin
            | none => (st, [])

/-- Per-spread market data consumed by `check_roll_condition`: underlying
price, the short leg's strike, and `(expiry - time).days`. -/
structure RollInfo where
  underlying_price : ℚ
  strike_price : ℚ
  dte : ℤ

/-- `check_roll_condition` (`main.py` lines 96-107).  The boolean records
whether the ROLL TRIGGER branch was taken (that branch logs and calls
`liquidate_spread`); the list is what was submitted to the broker. -/
def check_roll_condition (cfg : Config) (pf : Portfolio) (st : AlgoState)
    (info : RollInfo) (short_leg_symbol_str : String) : Bool × List BrokerAction :=
  if info.underlying_price ≤ info.strike_price ∧ info.dte ≤ cfg.roll_days_trigger then
    (true, liquidate_spread pf st short_leg_symbol_str)
  else (false, [])

/-- `execute_strategy` (`main.py` lines 76-94): roll checks over the open
spreads, the one-entry-per-day date gate, the capacity gate, the indicator
gates, then the chosen manager's `attempt_trade_entry` with
`margin_per_spread = spread_width * 100`. -/
def execute_strategy (cfg : Config) (pf : Portfolio) (today : ℕ)
    (rolls : String → RollInfo) (e : EntryData) (st : AlgoState) :
    AlgoState × List BrokerAction :=
  let rollActs :=
    (st.open_spreads.map
      (fun p => (check_roll_condition cfg pf st (rolls p.1) p.1).2)).flatten
  if st.last_trade_date = some today then (st, rollActs)
  else if st.open_spreads.length + st.pending_entry_symbols.card
          < cfg.max_concurrent_trades then
    if ¬ e.indicators_ready then (st, rollActs)
    else if e.adx_value < cfg.adx_trend_threshold then (st, rollActs)
    else
      let r := attempt_trade_entry cfg st e cfg.allocation_per_trade
        (cfg.spread_width * 100)
      (r.1, rollActs ++ r.2)
  else (st, rollActs)

/-- One externally-delivered event: a throttled hourly tick (with its
market data) or a broker order event, each carrying the current date and
holdings snapshot. -/
inductive Event where
  | tick (today : ℕ) (pf : Portfolio) (rolls : String → RollInfo) (e : EntryData)
  | orderEvent (today : ℕ) (pf : Portfolio) (ev : OrderEvent)

/-- Serial dispatch of one event (§5 of the spec: events are processed to
completion one at a time). -/
def stepEvent (cfg : Config) (st : AlgoState) : Event → AlgoState × List BrokerAction
  | Event.tick today pf rolls e => execute_strategy cfg pf today rolls e st
  | Event.orderEvent today pf ev => on_order_event cfg pf today st ev

/-- Run a sequence of events from a state, keeping only the state. -/
def runEvents (cfg : Config) (st : AlgoState) (evs : List Event) : AlgoState :=
  evs.foldl (fun s e => (stepEvent cfg s e).1) st

/-- The freshly-initialized ledger (`initialize`, `main.py` lines 58-61). -/
def initialState : AlgoState := ⟨[], ∅, [], none⟩

/-- Number of correlation keys counted against the capacity limit
(`len(self.open_spreads) + len(self.pending_entry_symbols)`,
`main.py` line 85). -/
def ledgerCount (st : AlgoState) : ℕ :=
  st.open_spreads.length + st.pending_entry_symbols.card

/-! ### Association-list lemmas -/

theorem lookupKey_eraseKey_self {α : Type} (k : String) (l : List (String × α)) :
    lookupKey k (eraseKey k l) = none := by
  induction l with
  | nil => rfl
  | cons p t ih =>
      by_cases h : p.1 = k
      · simpa [eraseKey, h] using ih
      · simpa [eraseKey, lookupKey, h] using ih

theorem eraseKey_idem {α : Type} (k : String) (l : List (String × α)) :
    eraseKey k (eraseKey k l) = eraseKey k l := by
  simp [eraseKey, List.filter_filter]

theorem length_eraseKey_le {α : Type} (k : String) (l : List (String × α)) :
    (eraseKey k l).length ≤ l.length :=
  List.length_filter_le _ l

theorem length_insertKey_le {α : Type} (k : String) (v : α) (l : List (String × α)) :
    (insertKey k v l).length ≤ l.length + 1 := by
  simpa [insertKey] using Nat.succ_le_succ (length_eraseKey_le k l)

theorem eraseKey_cons_self {α : Type} {s : String} {p : String × α} (t : List (String × α))
    (hp : p.1 = s) : eraseKey s (p :: t) = eraseKey s t := by
  simp [eraseKey, List.filter_cons, hp]

theorem eraseKey_cons_ne {α : Type} {s : String} {p : String × α} (t : List (String × α))
    (hp : ¬ (p.1 = s)) : eraseKey s (p :: t) = p :: eraseKey s t := by
  simp [eraseKey, List.filter_cons, hp]

theorem lookupKey_of_eraseKey {α : Type} {k s : String} {l : List (String × α)} {v : α}
    (h : lookupKey k (eraseKey s l) = some v) : lookupKey k l = some v := by
  by_cases hks : s = k
  · rw [hks, lookupKey_eraseKey_self] at h
    exact absurd h (by simp)
  · induction l with
    | nil => simpa [eraseKey] using h
    | cons p t ih =>
        by_cases hp : p.1 = s
        · rw [eraseKey_cons_self t hp] at h
          have hk : ¬ (p.1 = k) := by rw [hp]; exact hks
          rw [lookupKey, if_neg hk]
          exact ih h
        · rw [eraseKey_cons_ne t hp, lookupKey] at h
          rw [lookupKey]
          by_cases hk : p.1 = k
          · simpa [hk] using h
          · rw [if_neg hk] at h ⊢
            exact ih h

theorem lookupKey_of_insertKey {α : Type} {k s : String} {l : List (String × α)} {v w : α}
    (h : lookupKey k (insertKey s v l) = some w) :
    (s = k ∧ w = v) ∨ lookupKey k l = some w := by
  rw [insertKey, lookupKey] at h
  by_cases hs : s = k
  · left
    simp only [hs, if_true] at h
    exact ⟨hs, (Option.some.injEq _ _ ▸ h).symm⟩
  · right
    simp only [hs, if_false] at h
    exact lookupKey_of_eraseKey h

theorem lookupKey_insertKey_self {α : Type} (k : String) (v : α) (l : List (String × α)) :
    lookupKey k (insertKey k v l) = some v := by
  simp [insertKey, lookupKey]

/-! ### Selection lemmas for the candidate searches -/

theorem head?_mem {α : Type} {l : List α} {a : α} (h : l.head? = some a) : a ∈ l := by
  cases l with
  | nil => simp at h
  | cons b t =>
      simp only [List.head?, Option.some.injEq] at h
      simp [h]

theorem selectLowestStrike_eq_none {l : List Cand} :
    selectLowestStrike l = none ↔ l = [] := by
  cases l with
  | nil => simp [selectLowestStrike]
  | cons c t =>
      simp only [List.cons_ne_nil, iff_false]
      intro h
      rw [selectLowestStrike] at h
      split at h
      · simp at h
      · split at h <;> simp at h

theorem selectLowestStrike_mem {l : List Cand} :
    ∀ {c : Cand}, selectLowestStrike l = some c → c ∈ l := by
  induction l with
  | nil => intro c h; simp [selectLowestStrike] at h
  | cons a t ih =>
      intro c h
      rw [selectLowestStrike] at h
      split at h
      · simp only [Option.some.injEq] at h
        simp [← h]
      · rename_i b hrec
        split at h
        · simp only [Option.some.injEq] at h
          exact List.mem_cons_of_mem a (ih (h ▸ hrec))
        · simp only [Option.some.injEq] at h
          simp [← h]

theorem selectLowestStrike_min {l : List Cand} :
    ∀ {c : Cand}, selectLowestStrike l = some c → ∀ b ∈ l, c.strike ≤ b.strike := by
  induction l with
  | nil => intro c h; simp [selectLowestStrike] at h
  | cons a t ih =>
      intro c h b hb
      rw [selectLowestStrike] at h
      split at h
      · rename_i hrec
        simp only [Option.some.injEq] at h
        have ht : t = [] := selectLowestStrike_eq_none.mp hrec
        subst ht
        simp only [List.mem_singleton] at hb
        simp [← h, hb]
      · rename_i m hrec
        split at h
        · rename_i hm
          simp only [Option.some.injEq] at h
          rcases List.mem_cons.mp hb with hba | hbt
          · subst hba
            exact le_of_lt (h ▸ hm)
          · exact ih (h ▸ hrec) b hbt
        · rename_i hm
          simp only [Option.some.injEq] at h
          rcases List.mem_cons.mp hb with hba | hbt
          · subst hba
            simp [← h]
          · have h1 := ih hrec b hbt
            have h2 : a.strike ≤ m.strike := le_of_not_lt hm
            calc c.strike = a.strike := by rw [← h]
              _ ≤ m.strike := h2
              _ ≤ b.strike := h1

theorem selectHighestStrike_eq_none {l : List Cand} :
    selectHighestStrike l = none ↔ l = [] := by
  cases l with
  | nil => simp [selectHighestStrike]
  | cons c t =>
      simp only [List.cons_ne_nil, iff_false]
      intro h
      rw [selectHighestStrike] at h
      split at h
      · simp at h
      · split at h <;> simp at h

theorem selectHighestStrike_mem {l : List Cand} :
    ∀ {c : Cand}, selectHighestStrike l = some c → c ∈ l := by
  induction l with
  | nil => intro c h; simp [selectHighestStrike] at h
  | cons a t ih =>
      intro c h
      rw [selectHighestStrike] at h
      split at h
      · simp only [Option.some.injEq] at h
        simp [← h]
      · rename_i b hrec
        split at h
        · simp only [Option.some.injEq] at h
          exact List.mem_cons_of_mem a (ih (h ▸ hrec))
        · simp only [Option.some.injEq] at h
          simp [← h]

theorem selectHighestStrike_max {l : List Cand} :
    ∀ {c : Cand}, selectHighestStrike l = some c → ∀ b ∈ l, b.strike ≤ c.strike := by
  induction l with
  | nil => intro c h; simp [selectHighestStrike] at h
  | cons a t ih =>
      intro c h b hb
      rw [selectHighestStrike] at h
      split at h
      · rename_i hrec
        simp only [Option.some.injEq] at h
        have ht : t = [] := selectHighestStrike_eq_none.mp hrec
        subst ht
        simp only [List.mem_singleton] at hb
        simp [← h, hb]
      · rename_i m hrec
        split at h
        · rename_i hm
          simp only [Option.some.injEq] at h
          rcases List.mem_cons.mp hb with hba | hbt
          · subst hba
            exact le_of_lt (h ▸ hm)
          · exact ih (h ▸ hrec) b hbt
        · rename_i hm
          simp only [Option.some.injEq] at h
          rcases List.mem_cons.mp hb with hba | hbt
          · subst hba
            simp [← h]
          · have h1 := ih hrec b hbt
            have h2 : m.strike ≤ a.strike := le_of_not_lt hm
            calc b.strike ≤ m.strike := h1
              _ ≤ a.strike := h2
              _ = c.strike := by rw [← h]

theorem putPair_spec {puts : List Contract} {w : ℚ} {s : Contract} {c : Cand}
    (h : putPair puts w s = some c) :
    c.short = s ∧ c.strike = s.strike ∧ c.long ∈ puts ∧
    c.long.strike = c.short.strike - w ∧ c.long.expiry = c.short.expiry ∧
    0 < c.short.bid_price ∧ 0 < c.long.ask_price ∧
    w * (1/2) ≤ c.short.bid_price - c.long.ask_price := by
  rw [putPair] at h
  split at h
  · exact absurd h (by simp)
  · rename_i hbid
    split at h
    · exact absurd h (by simp)
    · rename_i long hlong
      split at h
      · exact absurd h (by simp)
      · rename_i hask
        split at h
        · rename_i hcred
          simp only [Option.some.injEq] at h
          subst h
          have hlmem := List.mem_filter.mp (head?_mem hlong)
          simp only [decide_eq_true_eq] at hlmem
          exact ⟨rfl, rfl, hlmem.1, hlmem.2.1, hlmem.2.2,
            lt_of_not_le hbid, lt_of_not_le hask, hcred⟩
        · exact absurd h (by simp)

theorem callPair_spec {calls : List Contract} {w : ℚ} {s : Contract} {c : Cand}
    (h : callPair calls w s = some c) :
    c.short = s ∧ c.strike = s.strike ∧ c.long ∈ calls ∧
    c.long.strike = c.short.strike - w ∧ c.long.expiry = c.short.expiry ∧
    0 < c.short.bid_price ∧ 0 < c.long.ask_price ∧
    0 < c.long.ask_price - c.short.bid_price ∧
    c.long.ask_price - c.short.bid_price ≤ w * (1/2) := by
  rw [callPair] at h
  split at h
  · exact absurd h (by simp)
  · rename_i hbid
    split at h
    · exact absurd h (by simp)
    · rename_i long hlong
      split at h
      · exact absurd h (by simp)
      · rename_i hask
        split at h
        · rename_i hdeb
          simp only [Option.some.injEq] at h
          subst h
          have hlmem := List.mem_filter.mp (head?_mem hlong)
          simp only [decide_eq_true_eq] at hlmem
          exact ⟨rfl, rfl, hlmem.1, hlmem.2.1, hlmem.2.2,
            lt_of_not_le hbid, lt_of_not_le hask, hdeb.1, hdeb.2⟩
        · exact absurd h (by simp)

/-- Claim C8: the credit search accepts a put pair only when the net
credit (short bid minus long ask) is at least `0.5 * width` and returns
the accepted candidate with the lowest short strike, or no candidate when
none is accepted; the debit search accepts only in-the-money call pairs
whose net debit (long ask minus short bid) is strictly positive and at
most `0.5 * width` and returns the accepted candidate with the highest
short strike, or no candidate when none is accepted. -/
theorem spread_search_correct (option_chain : List Contract)
    (underlying_price width : ℚ) :
    (∀ c ∈ putCandidates option_chain width,
        c.short.right = OptRight.put ∧ c.long.right = OptRight.put ∧
        width * (1/2) ≤ c.short.bid_price - c.long.ask_price) ∧
    (find_best_bull_put_spread option_chain width = none ↔
        putCandidates option_chain width = []) ∧
    (∀ c, find_best_bull_put_spread option_chain width = some c →
        c ∈ putCandidates option_chain width ∧
        ∀ b ∈ putCandidates option_chain width, c.strike ≤ b.strike) ∧
    (∀ c ∈ callCandidates option_chain underlying_price width,
        c.short.right = OptRight.call ∧ c.long.right = OptRight.call ∧
        c.short.strike < underlying_price ∧ c.long.strike < underlying_price ∧
        0 < c.long.ask_price - c.short.bid_price ∧
        c.long.ask_price - c.short.bid_price ≤ width * (1/2)) ∧
    (find_best_bull_call_spread option_chain underlying_price width = none ↔
        callCandidates option_chain underlying_price width = []) ∧
    (∀ c, find_best_bull_call_spread option_chain underlying_price width = some c →
        c ∈ callCandidates option_chain underlying_price width ∧
        ∀ b ∈ callCandidates option_chain underlying_price width,
          b.strike ≤ c.strike) := by
  refine ⟨?_, ?_, ?_, ?_, ?_, ?_⟩
  · intro c hc
    simp only [putCandidates, List.mem_filterMap] at hc
    obtain ⟨s, hs, hps⟩ := hc
    obtain ⟨hshort, -, hlmem, -, -, -, -, hcred⟩ := putPair_spec hps
    have hsput := List.mem_filter.mp hs
    have hlput := List.mem_filter.mp hlmem
    simp only [decide_eq_true_eq] at hsput hlput
    exact ⟨hshort ▸ hsput.2, hlput.2, hcred⟩
  · exact selectLowestStrike_eq_none
  · intro c hc
    exact ⟨selectLowestStrike_mem hc, selectLowestStrike_min hc⟩
  · intro c hc
    simp only [callCandidates, List.mem_filterMap] at hc
    obtain ⟨s, hs, hcs⟩ := hc
    obtain ⟨hshort, -, hlmem, -, -, -, -, hdeb1, hdeb2⟩ := callPair_spec hcs
    have hscall := List.mem_filter.mp hs
    have hlcall := List.mem_filter.mp hlmem
    simp only [decide_eq_true_eq] at hscall hlcall
    exact ⟨hshort ▸ hscall.2.1, hlcall.2.1, hshort ▸ hscall.2.2, hlcall.2.2,
      hdeb1, hdeb2⟩
  · exact selectHighestStrike_eq_none
  · intro c hc
    exact ⟨selectHighestStrike_mem hc, selectHighestStrike_max hc⟩

/-! ### Concrete demonstration data

The rational-arithmetic primitives are `@[irreducible]` upstream, which
blocks `decide` on closed rational goals; within this section they are
restored to their normal reducibility so that concrete states evaluate. -/

section ConcreteEvaluation

attribute [local semireducible] Rat.add Rat.mul Rat.sub Rat.inv

/-- Demo configuration mirroring `initialize`: 10 max concurrent trades,
0.08 allocation per trade, 0.95 profit target, width 2.0, roll trigger 3,
ADX threshold 20. -/
def demoCfg : Config := ⟨10, 8/100, 19/20, 2, 3, 20⟩

/-- Demo holdings: short leg "S" is short one contract, long leg "L" holds
two, everything else is flat. -/
def demoPf : Portfolio := fun s => if s = "S" then -1 else if s = "L" then 2 else 0

/-- Demo ledger holding one open credit spread keyed "S" with net cost
-0.50 (a 0.50 net credit). -/
def demoOpenSt : AlgoState := ⟨[("S", ⟨-(1/2), "L"⟩)], ∅, [], none⟩

/-- The stored first fill of the adverse scenario: short put "S" sold at
1.00, tagged "S". -/
def advFirst : Order := ⟨"S", OptRight.put, OrderDirection.sell, 1, "S"⟩

/-- The adverse second fill: long put "L" bought at 1.10, same tag, so the
net credit is -0.10. -/
def advOrder : Order := ⟨"L", OptRight.put, OrderDirection.buy, 11/10, "S"⟩

/-- Ledger at the moment the adverse second fill arrives: "S" is pending
entry with its first leg fill recorded. -/
def advSt : AlgoState := ⟨[], {"S"}, [("S", advFirst)], none⟩

/-- Holdings after both adverse legs filled: short one "S", long one
"L". -/
def advPf : Portfolio := fun s => if s = "S" then -1 else if s = "L" then 1 else 0

/-- The adverse second fill as `on_order_event` receives it. -/
def advEv : OrderEvent := ⟨advOrder, OrderStat.filled⟩

/-! ### Claim C6 -/

/-- Claim C6: for every open spread the roll/stop evaluation takes the
liquidation branch exactly when the short leg is in the money
(`underlying_price <= strike`, the source's `is_itm`) and days-to-expiry
is at most the configured threshold; the actions it submits are exactly
`liquidate_spread`'s when it fires and nothing otherwise.  In particular
with strike 45, underlying 44, 2 DTE and threshold 3 it fires, submitting
the liquidation market orders for both legs of the open spread, and with
5 DTE it does not. -/
theorem roll_trigger_correct :
    (∀ (cfg : Config) (pf : Portfolio) (st : AlgoState) (info : RollInfo) (s : String),
        ((check_roll_condition cfg pf st info s).1 = true ↔
          (info.underlying_price ≤ info.strike_price ∧
           info.dte ≤ cfg.roll_days_trigger)) ∧
        (check_roll_condition cfg pf st info s).2 =
          (if (check_roll_condition cfg pf st info s).1 = true
           then liquidate_spread pf st s else [])) ∧
    check_roll_condition demoCfg demoPf demoOpenSt ⟨44, 45, 2⟩ "S" =
      (true, [BrokerAction.marketOrder "S" 1 "S",
              BrokerAction.marketOrder "L" (-2) "S"]) ∧
    check_roll_condition demoCfg demoPf demoOpenSt ⟨44, 45, 5⟩ "S" = (false, []) := by
  refine ⟨?_, by decide, by decide⟩
  intro cfg pf st info s
  constructor
  · by_cases hcond : info.underlying_price ≤ info.strike_price ∧
        info.dte ≤ cfg.roll_days_trigger
    · simp [check_roll_condition, hcond]
    · simp [check_roll_condition, hcond]
  · by_cases hcond : info.underlying_price ≤ info.strike_price ∧
        info.dte ≤ cfg.roll_days_trigger
    · simp [check_roll_condition, hcond]
    · simp [check_roll_condition, hcond]

/-! ### Claim C7 -/

/-- The spec's closing price for a credit spread with net credit `C`:
`round(C * (1 - profitTargetFraction), 2)` floored at the minimum tick. -/
def specCreditClose (C fraction : ℚ) : ℚ :=
  max (round2 (C * (1 - fraction))) (1/100)

/-- The spec's closing price for a debit spread with net debit `D` and
width `W`: `round(D + (W - D) * profitTargetFraction, 2)`. -/
def specDebitClose (D W fraction : ℚ) : ℚ :=
  round2 (D + (W - D) * fraction)

theorem tick_floor_eq_max (q : ℚ) :
    (if q < 1/100 then (1/100 : ℚ) else q) = max q (1/100) := by
  rcases lt_or_le q (1/100) with h | h
  · rw [if_pos h, max_eq_right (le_of_lt h)]
  · rw [if_neg (not_lt.2 h), max_eq_left h]

/-- Claim C7: for every opened spread the profit-taker prices equal the
spec formulas: for a credit spread with net credit `C` the buy-to-close
limit on the short leg is `round(C * (1 - fraction), 2)` floored at 0.01
with the long leg closed at 0.01; for a debit spread with net debit `D`
and width `W` the short-leg limit is `round(D + (W - D) * fraction, 2)`;
and `C = 0.50, fraction = 0.95` gives 0.03 while
`D = 0.80, W = 2.00, fraction = 0.95` gives 1.94. -/
theorem profit_taker_formula (cfg : Config) (pf : Portfolio) (st : AlgoState)
    (s : String) (td : SpreadData)
    (h : lookupKey s st.open_spreads = some td) :
    (td.net_cost < 0 →
      set_spread_profit_taker cfg pf st s =
        [BrokerAction.limitOrder s (-(pf s))
           (specCreditClose (-td.net_cost) cfg.profit_target_percentage) s,
         BrokerAction.limitOrder td.long_leg_symbol_str
           (-(pf td.long_leg_symbol_str)) (1/100) s]) ∧
    (0 ≤ td.net_cost →
      set_spread_profit_taker cfg pf st s =
        [BrokerAction.limitOrder s (-(pf s))
           (specDebitClose td.net_cost cfg.spread_width cfg.profit_target_percentage) s,
         BrokerAction.limitOrder td.long_leg_symbol_str
           (-(pf td.long_leg_symbol_str)) (1/100) s]) ∧
    specCreditClose (1/2) (19/20) = 3/100 ∧
    specDebitClose (4/5) 2 (19/20) = 97/50 := by
  refine ⟨?_, ?_, by decide, by decide⟩
  · intro hneg
    simp only [set_spread_profit_taker, h]
    rw [if_pos hneg, tick_floor_eq_max]
    simp only [specCreditClose]
  · intro hpos
    simp only [set_spread_profit_taker, h]
    rw [if_neg (not_lt.2 hpos)]
    simp only [specDebitClose]

/-- Witness for C7: evaluating the profit taker on the demo open credit
spread (net credit 0.50) produces the 0.03 buy-to-close on the short leg
and the 0.01 sell-to-close on the long leg. -/
theorem profit_taker_formula_witness :
    set_spread_profit_taker demoCfg demoPf demoOpenSt "S" =
      [BrokerAction.limitOrder "S" (-(demoPf "S"))
         (specCreditClose (-(-(1/2) : ℚ)) demoCfg.profit_target_percentage) "S",
       BrokerAction.limitOrder "L" (-(demoPf "L")) (1/100) "S"] :=
  (profit_taker_formula demoCfg demoPf demoOpenSt "S" ⟨-(1/2), "L"⟩
    (by decide)).1 (by decide)

/-! ### Claim C4 -/

/-- Claim C4: processing a CANCELED (or INVALID) order event twice for the
same correlation key leaves the ledger exactly as after the first one and
emits nothing; the first processing never touches `open_spreads` or
`last_trade_date`; and for a key already absent from
`pending_entry_symbols` and `pending_fills` the event is a complete
no-op. -/
theorem cancel_event_idempotent (cfg : Config) (pf pf2 : Portfolio) (d d2 : ℕ)
    (st : AlgoState) (ev : OrderEvent)
    (h : ev.status = OrderStat.canceled ∨ ev.status = OrderStat.invalid) :
    on_order_event cfg pf2 d2 (on_order_event cfg pf d st ev).1 ev =
      ((on_order_event cfg pf d st ev).1, []) ∧
    (on_order_event cfg pf d st ev).1.open_spreads = st.open_spreads ∧
    (on_order_event cfg pf d st ev).1.last_trade_date = st.last_trade_date ∧
    (ev.ord.tag ∉ st.pending_entry_symbols →
      lookupKey ev.ord.tag st.pending_fills = none →
      on_order_event cfg pf d st ev = (st, [])) := by
  by_cases htag : ev.ord.tag = ""
  · refine ⟨?_, ?_, ?_, ?_⟩
    · simp [on_order_event, htag]
    · simp [on_order_event, htag]
    · simp [on_order_event, htag]
    · intro _ _
      simp [on_order_event, htag]
  · have hred : ∀ (pfx : Portfolio) (dx : ℕ) (stx : AlgoState),
        on_order_event cfg pfx dx stx ev =
          ({ stx with
             pending_entry_symbols :=
               if ev.ord.tag ∈ stx.pending_entry_symbols then
                 stx.pending_entry_symbols.erase ev.ord.tag
               else stx.pending_entry_symbols,
             pending_fills :=
               if (lookupKey ev.ord.tag stx.pending_fills).isSome then
                 eraseKey ev.ord.tag stx.pending_fills
               else stx.pending_fills }, []) := by
      intro pfx dx stx
      simp only [on_order_event]
      rw [if_neg htag, if_pos h]
    refine ⟨?_, ?_, ?_, ?_⟩
    · rw [hred pf d st, hred pf2 d2 _]
      have hpes : ev.ord.tag ∉
          (if ev.ord.tag ∈ st.pending_entry_symbols then
             st.pending_entry_symbols.erase ev.ord.tag
           else st.pending_entry_symbols) := by
        by_cases hmem : ev.ord.tag ∈ st.pending_entry_symbols
        · rw [if_pos hmem]
          exact Finset.not_mem_erase _ _
        · rw [if_neg hmem]
          exact hmem
      have hpf : lookupKey ev.ord.tag
          (if (lookupKey ev.ord.tag st.pending_fills).isSome then
             eraseKey ev.ord.tag st.pending_fills
           else st.pending_fills) = none := by
        by_cases hsome : (lookupKey ev.ord.tag st.pending_fills).isSome
        · rw [if_pos hsome]
          exact lookupKey_eraseKey_self _ _
        · rw [if_neg hsome]
          exact Option.not_isSome_iff_eq_none.mp hsome
      simp [hpes, hpf]
    · rw [hred pf d st]
    · rw [hred pf d st]
    · intro hnpes hnone
      rw [hred pf d st]
      rw [if_neg hnpes, if_neg (by rw [hnone]; simp)]

/-! ### Claim C5 -/

theorem eraseKey_insertKey_self {α : Type} (k : String) (v : α)
    (l : List (String × α)) : eraseKey k (insertKey k v l) = eraseKey k l := by
  have h1 : eraseKey k ((k, v) :: eraseKey k l) = eraseKey k (eraseKey k l) :=
    eraseKey_cons_self (eraseKey k l) rfl
  rw [insertKey, h1, eraseKey_idem]

/-- Claim C5: for two entry-leg fill orders with the same correlation key,
the same option right and opposite directions, feeding them to
`handle_spread_entry_fill` in either order produces the same ledger state
and the same broker actions — the sell-direction leg is always treated as
the short leg and the buy-direction leg as the long leg, regardless of
arrival order. -/
theorem entry_fills_order_independent (cfg : Config) (pf : Portfolio) (d : ℕ)
    (st : AlgoState) (o1 o2 : Order)
    (htag : o1.tag = o2.tag) (hright : o1.right = o2.right)
    (hdir : o1.direction ≠ o2.direction)
    (hfresh : lookupKey o1.tag st.pending_fills = none) :
    handle_spread_entry_fill cfg pf d (handle_spread_entry_fill cfg pf d st o1).1 o2 =
      handle_spread_entry_fill cfg pf d (handle_spread_entry_fill cfg pf d st o2).1 o1 := by
  have hfresh2 : lookupKey o2.tag st.pending_fills = none := htag ▸ hfresh
  have h1 : (handle_spread_entry_fill cfg pf d st o1).1 =
      { st with pending_fills := insertKey o1.tag o1 st.pending_fills } := by
    simp only [handle_spread_entry_fill, hfresh]
  have h2 : (handle_spread_entry_fill cfg pf d st o2).1 =
      { st with pending_fills := insertKey o2.tag o2 st.pending_fills } := by
    simp only [handle_spread_entry_fill, hfresh2]
  rw [h1, h2]
  have hl1 : lookupKey o2.tag (insertKey o1.tag o1 st.pending_fills) = some o1 := by
    rw [← htag]
    exact lookupKey_insertKey_self _ _ _
  have hl2 : lookupKey o1.tag (insertKey o2.tag o2 st.pending_fills) = some o2 := by
    rw [htag]
    exact lookupKey_insertKey_self _ _ _
  simp only [handle_spread_entry_fill, hl1, hl2]
  simp only [← htag]
  simp only [eraseKey_insertKey_self]
  simp only [hright]
  cases hd1 : o1.direction <;> cases hd2 : o2.direction
  · exact absurd (hd1.trans hd2.symm) hdir
  · simp [hd1, hd2]
  · simp [hd1, hd2]
  · exact absurd (hd1.trans hd2.symm) hdir

/-- Witness for C5: a concrete sell-then-buy pair of put fills and its
reversal give the same result. -/
theorem entry_fills_order_independent_witness :
    handle_spread_entry_fill demoCfg demoPf 7
        (handle_spread_entry_fill demoCfg demoPf 7 initialState
          ⟨"S", OptRight.put, OrderDirection.sell, 3, "S"⟩).1
        ⟨"L", OptRight.put, OrderDirection.buy, 1, "S"⟩ =
      handle_spread_entry_fill demoCfg demoPf 7
        (handle_spread_entry_fill demoCfg demoPf 7 initialState
          ⟨"L", OptRight.put, OrderDirection.buy, 1, "S"⟩).1
        ⟨"S", OptRight.put, OrderDirection.sell, 3, "S"⟩ :=
  entry_fills_order_independent demoCfg demoPf 7 initialState
    ⟨"S", OptRight.put, OrderDirection.sell, 3, "S"⟩
    ⟨"L", OptRight.put, OrderDirection.buy, 1, "S"⟩
    (by decide) (by decide) (by decide) (by decide)

/-- Witness for C4: processing the same CANCELED event twice on the
adverse ledger changes nothing the second time and emits nothing. -/
theorem cancel_event_idempotent_witness :
    on_order_event demoCfg demoPf 8
        (on_order_event demoCfg demoPf 7 advSt ⟨advOrder, OrderStat.canceled⟩).1
        ⟨advOrder, OrderStat.canceled⟩ =
      ((on_order_event demoCfg demoPf 7 advSt ⟨advOrder, OrderStat.canceled⟩).1,
       []) :=
  (cancel_event_idempotent demoCfg demoPf demoPf 7 8 advSt
    ⟨advOrder, OrderStat.canceled⟩ (Or.inl rfl)).1

/-! ### Claim C10 -/

/-- Claim C10: `liquidate_spread` for a key that is not in `open_spreads`
submits no market order for either leg — when the key is still in
`pending_entry_symbols` it emits exactly one cancellation of resting
orders on the short leg, and when the key is in neither set it emits
nothing; moreover the adverse-fill path of `handle_spread_entry_fill`
invokes it before the key is ever inserted into `open_spreads`, leaving
the whole ledger unchanged apart from dropping the recorded first fill —
in particular the key stays in `pending_entry_symbols`. -/
theorem liquidate_spread_not_open (pf : Portfolio) (st : AlgoState) (s : String)
    (hopen : lookupKey s st.open_spreads = none) :
    ((s ∈ st.pending_entry_symbols →
        liquidate_spread pf st s = [BrokerAction.cancelOpenOrders s]) ∧
     (s ∉ st.pending_entry_symbols → liquidate_spread pf st s = [])) ∧
    (∀ (cfg : Config) (d : ℕ) (order first_leg_order : Order),
        lookupKey order.tag st.pending_fills = some first_leg_order →
        first_leg_order.right = OptRight.put →
        ∀ short_order long_order : Order,
        short_order =
          (if order.direction = OrderDirection.sell then order else first_leg_order) →
        long_order =
          (if order.direction = OrderDirection.buy then order else first_leg_order) →
        short_order.price - long_order.price ≤ 0 →
        (handle_spread_entry_fill cfg pf d st order).1 =
          { st with pending_fills := eraseKey order.tag st.pending_fills } ∧
        (handle_spread_entry_fill cfg pf d st order).2 =
          liquidate_spread pf
            { st with pending_fills := eraseKey order.tag st.pending_fills }
            short_order.symbol) := by
  constructor
  · constructor
    · intro hmem
      simp [liquidate_spread, hopen, hmem]
    · intro hmem
      simp [liquidate_spread, hopen, hmem]
  · intro cfg d order first_leg_order hfirst hput short_order long_order hso hlo hneg
    have hncall : ¬ (first_leg_order.right = OptRight.call) := by
      rw [hput]
      intro hc
      exact absurd hc (by simp)
    subst hso
    subst hlo
    simp only [handle_spread_entry_fill, hfirst, if_neg hncall, if_pos hneg]
    exact ⟨trivial, trivial⟩

/-- Witness for C10: on the adverse ledger, liquidating pending "S" emits
only the short-leg cancellation, and the adverse second fill leaves the
ledger unchanged except for dropping the recorded first fill. -/
theorem liquidate_spread_not_open_witness :
    liquidate_spread advPf advSt "S" = [BrokerAction.cancelOpenOrders "S"] ∧
    (handle_spread_entry_fill demoCfg advPf 7 advSt advOrder).1 =
      { advSt with pending_fills := eraseKey advOrder.tag advSt.pending_fills } := by
  have h := liquidate_spread_not_open advPf advSt "S" (by decide)
  refine ⟨h.1.1 (by decide), ?_⟩
  exact (h.2 demoCfg 7 advOrder advFirst (by decide) (by decide)
    (if advOrder.direction = OrderDirection.sell then advOrder else advFirst)
    (if advOrder.direction = OrderDirection.buy then advOrder else advFirst)
    rfl rfl (by decide)).1

/-! ### Claim C2 -/

/-- Claim C2, evaluated at the failing input (code bug): for the put
spread tagged "S" whose first leg sold at 1.00 and second leg bought at
1.10 (net credit -0.10), with both legs held in the portfolio, the
handler never registers "S" in `open_spreads` — but the triggered
"liquidation" submits no market order for either held leg: the only
emitted action is a cancellation of resting orders on the short leg, so
the partially built position is left open rather than liquidated. -/
theorem adverse_fill_position_not_liquidated :
    (on_order_event demoCfg advPf 7 advSt advEv).1.open_spreads = [] ∧
    (on_order_event demoCfg advPf 7 advSt advEv).1.pending_entry_symbols = {"S"} ∧
    (on_order_event demoCfg advPf 7 advSt advEv).2 =
      [BrokerAction.cancelOpenOrders "S"] ∧
    advPf "S" ≠ 0 ∧ advPf "L" ≠ 0 :=
  ⟨by decide, by decide, by decide, by decide, by decide⟩

/-! ### Witness data for C8 and C9 -/

/-- A demo option chain whose only qualifying bull-put pair is the short
put "SP45" (strike 45, bid 1.20) with long put "LP43" (strike 43, ask
0.20): net credit 1.00 on width 2. -/
def demoChain : List Contract :=
  [⟨"SP45", OptRight.put, 45, 10, 12/10, 13/10⟩,
   ⟨"LP43", OptRight.put, 43, 10, 1/10, 2/10⟩]

/-- The candidate produced by the demo chain. -/
def demoBest : Cand :=
  ⟨⟨"SP45", OptRight.put, 45, 10, 12/10, 13/10⟩,
   ⟨"LP43", OptRight.put, 43, 10, 1/10, 2/10⟩, 45⟩

/-- Witness for C8: on the demo chain the selected bull-put candidate is
an accepted candidate with the minimal short strike, and the selection is
that candidate. -/
theorem spread_search_correct_witness :
    demoBest ∈ putCandidates demoChain 2 ∧
    ∀ b ∈ putCandidates demoChain 2, demoBest.strike ≤ b.strike :=
  (spread_search_correct demoChain 46 2).2.2.1 demoBest (by decide)

/-- A second demo chain whose only qualifying bull-put pair has short
strike 50. -/
def demoChain2 : List Contract :=
  [⟨"SP50", OptRight.put, 50, 10, 15/10, 16/10⟩,
   ⟨"LP48", OptRight.put, 48, 10, 2/10, 3/10⟩]

/-- Market inputs of a tick that finds the `demoChain` put spread:
indicators ready, ADX 25 over threshold 20, trend aligned, underlying 46,
total portfolio value 100000. -/
def demoEntry : EntryData := ⟨true, 25, true, 46, some demoChain, 100000⟩

/-- The same tick inputs with the second chain. -/
def demoEntry2 : EntryData := ⟨true, 25, true, 46, some demoChain2, 100000⟩

/-- Per-spread roll data that never fires (underlying far above strike,
plenty of DTE). -/
def demoRolls : String → RollInfo := fun _ => ⟨100, 45, 100⟩

/-! ### Claim C1: capacity invariant -/

theorem count_insert_erase_le {open1 : List (String × SpreadData)}
    {pes : Finset String} {k : String} {v : SpreadData} {t : String}
    (hmem : t ∈ pes) :
    (insertKey k v open1).length + (pes.erase t).card ≤ open1.length + pes.card := by
  have h1 := length_insertKey_le k v open1
  have h2 := Finset.card_erase_add_one hmem
  omega

theorem ledgerCount_execute_spread_trade_le (st : AlgoState) (pv : ℚ)
    (sl ll : Contract) (alloc margin : ℚ) :
    ledgerCount (execute_spread_trade st pv sl ll alloc margin).1 ≤
      ledgerCount st + 1 := by
  simp only [execute_spread_trade]
  split
  · exact Nat.le_succ _
  · split
    · exact Nat.le_succ _
    · split
      · exact Nat.le_succ _
      · simp only [ledgerCount]
        have := Finset.card_insert_le sl.symbol st.pending_entry_symbols
        omega

theorem ledgerCount_attempt_trade_entry_le (cfg : Config) (st : AlgoState)
    (e : EntryData) (alloc margin : ℚ) :
    ledgerCount (attempt_trade_entry cfg st e alloc margin).1 ≤
      ledgerCount st + 1 := by
  simp only [attempt_trade_entry]
  split
  · exact Nat.le_succ _
  · split
    · exact Nat.le_succ _
    · split
      · exact ledgerCount_execute_spread_trade_le _ _ _ _ _ _
      · split
        · exact ledgerCount_execute_spread_trade_le _ _ _ _ _ _
        · exact Nat.le_succ _

theorem ledgerCount_handle_entry_fill_le (cfg : Config) (pf : Portfolio) (d : ℕ)
    (st : AlgoState) (o : Order) (hmem : o.tag ∈ st.pending_entry_symbols) :
    ledgerCount (handle_spread_entry_fill cfg pf d st o).1 ≤ ledgerCount st := by
  cases hl : lookupKey o.tag st.pending_fills with
  | none =>
      simp only [handle_spread_entry_fill, hl, ledgerCount]
      exact le_refl _
  | some first =>
      by_cases hc : first.right = OptRight.call
      · simp only [handle_spread_entry_fill, hl, hc, if_true, ledgerCount]
        exact count_insert_erase_le hmem
      · by_cases hneg : ((if o.direction = OrderDirection.sell then o else first).price -
            (if o.direction = OrderDirection.buy then o else first).price ≤ 0)
        · simp only [handle_spread_entry_fill, hl, if_neg hc, if_pos hneg, ledgerCount]
          exact le_refl _
        · simp only [handle_spread_entry_fill, hl, if_neg hc, if_neg hneg, ledgerCount]
          exact count_insert_erase_le hmem

theorem ledgerCount_handle_exit_fill_le (pf : Portfolio) (st : AlgoState)
    (s : String) :
    ledgerCount (handle_spread_exit_fill pf st s).1 ≤ ledgerCount st := by
  simp only [handle_spread_exit_fill]
  split
  · exact le_refl _
  · split
    · simp only [ledgerCount]
      have := length_eraseKey_le s st.open_spreads
      omega
    · exact le_refl _

theorem ledgerCount_on_order_event_le (cfg : Config) (pf : Portfolio) (d : ℕ)
    (st : AlgoState) (ev : OrderEvent) :
    ledgerCount (on_order_event cfg pf d st ev).1 ≤ ledgerCount st := by
  simp only [on_order_event]
  split
  · exact le_refl _
  · split
    · simp only [ledgerCount]
      have h1 : (if ev.ord.tag ∈ st.pending_entry_symbols then
          st.pending_entry_symbols.erase ev.ord.tag
        else st.pending_entry_symbols).card ≤ st.pending_entry_symbols.card := by
        split
        · exact Finset.card_erase_le
        · exact le_refl _
      have h2 : (if (lookupKey ev.ord.tag st.pending_fills).isSome then
          eraseKey ev.ord.tag st.pending_fills
        else st.pending_fills).length ≤ st.pending_fills.length := by
        split
        · exact length_eraseKey_le _ _
        · exact le_refl _
      omega
    · split
      · exact le_refl _
      · split
        · rename_i hmem
          exact ledgerCount_handle_entry_fill_le cfg pf d st ev.ord hmem
        · split
          · exact ledgerCount_handle_exit_fill_le pf st ev.ord.tag
          · exact le_refl _

theorem ledgerCount_execute_strategy_le (cfg : Config) (pf : Portfolio)
    (today : ℕ) (rolls : String → RollInfo) (e : EntryData) (st : AlgoState)
    (h : ledgerCount st ≤ cfg.max_concurrent_trades) :
    ledgerCount (execute_strategy cfg pf today rolls e st).1 ≤
      cfg.max_concurrent_trades := by
  simp only [execute_strategy]
  split
  · exact h
  · split
    · rename_i hcap
      split
      · exact h
      · split
        · exact h
        · have := ledgerCount_attempt_trade_entry_le cfg st e
            cfg.allocation_per_trade (cfg.spread_width * 100)
          simp only [ledgerCount] at this hcap ⊢
          omega
    · exact h

theorem ledgerCount_stepEvent_le (cfg : Config) (st : AlgoState) (e : Event)
    (h : ledgerCount st ≤ cfg.max_concurrent_trades) :
    ledgerCount (stepEvent cfg st e).1 ≤ cfg.max_concurrent_trades := by
  cases e with
  | tick d pf rolls en => exact ledgerCount_execute_strategy_le cfg pf d rolls en st h
  | orderEvent d pf ev =>
      exact le_trans (ledgerCount_on_order_event_le cfg pf d st ev) h

theorem ledgerCount_runEvents_le (cfg : Config) (evs : List Event)
    (st : AlgoState) (h : ledgerCount st ≤ cfg.max_concurrent_trades) :
    ledgerCount (runEvents cfg st evs) ≤ cfg.max_concurrent_trades := by
  induction evs generalizing st with
  | nil => exact h
  | cons e t ih =>
      simp only [runEvents, List.foldl_cons]
      exact ih (stepEvent cfg st e).1 (ledgerCount_stepEvent_le cfg st e h)

/-- Claim C1: starting from the freshly initialized ledger, after any
sequence of tick and order events the number of correlation keys held in
the ledger — `open_spreads` entries plus `pending_entry_symbols` members,
which together cover in-flight, pending-entry and open spreads — never
exceeds the configured maximum concurrent trades; and a tick whose ledger
count is not strictly below the maximum performs no entry attempt: it
leaves the ledger state unchanged. -/
theorem capacity_invariant (cfg : Config) (evs : List Event) :
    ledgerCount (runEvents cfg initialState evs) ≤ cfg.max_concurrent_trades ∧
    (∀ (st : AlgoState) (today : ℕ) (pf : Portfolio)
        (rolls : String → RollInfo) (e : EntryData),
        cfg.max_concurrent_trades ≤ ledgerCount st →
        (stepEvent cfg st (Event.tick today pf rolls e)).1 = st) := by
  constructor
  · refine ledgerCount_runEvents_le cfg evs initialState ?_
    simp [ledgerCount, initialState]
  · intro st today pf rolls e hge
    simp only [ledgerCount] at hge
    simp only [stepEvent, execute_strategy]
    split
    · rfl
    · rw [if_neg (by omega)]

/-- Demo configuration with capacity one, used to exercise the gate. -/
def capCfg : Config := ⟨1, 8/100, 19/20, 2, 3, 20⟩

/-- Witness for C1: with capacity 1 and one open spread, a tick that
would otherwise find the demo candidate changes nothing. -/
theorem capacity_invariant_witness :
    ledgerCount (runEvents capCfg initialState []) ≤
      capCfg.max_concurrent_trades ∧
    (stepEvent capCfg demoOpenSt (Event.tick 5 demoPf demoRolls demoEntry)).1 =
      demoOpenSt :=
  ⟨(capacity_invariant capCfg []).1,
   (capacity_invariant capCfg []).2 demoOpenSt 5 demoPf demoRolls demoEntry
     (by decide)⟩

/-! ### Claim C3: a key is OPEN only after both legs are paired -/

/-- The role assignment of `handle_spread_entry_fill`: among the stored
first fill and the newly arrived second fill, the sell-direction order is
the short leg. -/
def pairShort (first second : Order) : Order :=
  if second.direction = OrderDirection.sell then second else first

/-- The buy-direction order of the pair is the long leg. -/
def pairLong (first second : Order) : Order :=
  if second.direction = OrderDirection.buy then second else first

/-- The net cost `handle_spread_entry_fill` stores for a completed pair:
long minus short fill price for a call spread, and minus the net credit
(short minus long fill price) for a put spread. -/
def pairNetCost (first second : Order) : ℚ :=
  if first.right = OptRight.call then
    (pairLong first second).price - (pairShort first second).price
  else
    -((pairShort first second).price - (pairLong first second).price)

theorem execute_spread_trade_open_eq (st : AlgoState) (pv : ℚ)
    (sl ll : Contract) (alloc margin : ℚ) :
    (execute_spread_trade st pv sl ll alloc margin).1.open_spreads =
      st.open_spreads := by
  simp only [execute_spread_trade]
  repeat' split
  all_goals rfl

theorem attempt_trade_entry_open_eq (cfg : Config) (st : AlgoState)
    (e : EntryData) (alloc margin : ℚ) :
    (attempt_trade_entry cfg st e alloc margin).1.open_spreads =
      st.open_spreads := by
  simp only [attempt_trade_entry]
  repeat' split
  all_goals first
    | rfl
    | exact execute_spread_trade_open_eq _ _ _ _ _ _

theorem execute_strategy_open_eq (cfg : Config) (pf : Portfolio) (today : ℕ)
    (rolls : String → RollInfo) (e : EntryData) (st : AlgoState) :
    (execute_strategy cfg pf today rolls e st).1.open_spreads =
      st.open_spreads := by
  simp only [execute_strategy]
  repeat' split
  all_goals first
    | rfl
    | exact attempt_trade_entry_open_eq _ _ _ _ _

theorem handle_exit_fill_open_lookup (pf : Portfolio) (st : AlgoState)
    (s k : String) (td : SpreadData)
    (h : lookupKey k (handle_spread_exit_fill pf st s).1.open_spreads = some td) :
    lookupKey k st.open_spreads = some td := by
  cases ho : lookupKey s st.open_spreads with
  | none => simpa [handle_spread_exit_fill, ho] using h
  | some td2 =>
      by_cases hinv : (pf s = 0 ∧ pf td2.long_leg_symbol_str = 0)
      · simp only [handle_spread_exit_fill, ho, if_pos hinv] at h
        exact lookupKey_of_eraseKey h
      · simpa [handle_spread_exit_fill, ho, hinv] using h

theorem handle_entry_fill_open_lookup (cfg : Config) (pf : Portfolio) (d : ℕ)
    (st : AlgoState) (o : Order) (k : String) (td : SpreadData)
    (h : lookupKey k (handle_spread_entry_fill cfg pf d st o).1.open_spreads =
      some td) :
    lookupKey k st.open_spreads = some td ∨
    (∃ first : Order,
       lookupKey o.tag st.pending_fills = some first ∧
       k = (pairShort first o).symbol ∧
       td.long_leg_symbol_str = (pairLong first o).symbol ∧
       td.net_cost = pairNetCost first o) := by
  cases hl : lookupKey o.tag st.pending_fills with
  | none =>
      left
      simpa [handle_spread_entry_fill, hl] using h
  | some first =>
      by_cases hc : first.right = OptRight.call
      · simp only [handle_spread_entry_fill, hl, hc, if_true] at h
        rcases lookupKey_of_insertKey h with ⟨hk, htd⟩ | hold
        · right
          refine ⟨first, rfl, ?_, ?_, ?_⟩
          · rw [← hk]
            simp [pairShort]
          · rw [htd]
            simp [pairLong]
          · rw [htd]
            simp [pairNetCost, pairShort, pairLong, hc]
        · left
          exact hold
      · by_cases hneg : ((if o.direction = OrderDirection.sell then o else first).price -
            (if o.direction = OrderDirection.buy then o else first).price ≤ 0)
        · left
          simp only [handle_spread_entry_fill, hl, if_neg hc, if_pos hneg] at h
          exact h
        · simp only [handle_spread_entry_fill, hl, if_neg hc, if_neg hneg] at h
          rcases lookupKey_of_insertKey h with ⟨hk, htd⟩ | hold
          · right
            refine ⟨first, rfl, ?_, ?_, ?_⟩
            · rw [← hk]
              simp [pairShort]
            · rw [htd]
              simp [pairLong]
            · rw [htd]
              simp [pairNetCost, pairShort, pairLong, hc]
          · left
            exact hold

/-- Claim C3: across any single event step, a correlation key is found in
`open_spreads` with some spread data only if it was already there with
exactly that data, or the step was a FILLED order event whose tag had a
recorded first leg fill in `pending_fills`, the key is the sell-direction
leg's symbol, and the stored entry pairs both legs: its long-leg identity
is the buy-direction leg's symbol and its net cost is computed from both
fill prices.  In particular a single leg fill with no recorded partner
never makes a key visible in `open_spreads`. -/
theorem open_spread_needs_both_legs (cfg : Config) (st : AlgoState) (e : Event)
    (k : String) (td : SpreadData)
    (h : lookupKey k ((stepEvent cfg st e).1).open_spreads = some td) :
    lookupKey k st.open_spreads = some td ∨
    (∃ (d : ℕ) (pf : Portfolio) (ev : OrderEvent) (first : Order),
       e = Event.orderEvent d pf ev ∧
       ev.status = OrderStat.filled ∧
       lookupKey ev.ord.tag st.pending_fills = some first ∧
       k = (pairShort first ev.ord).symbol ∧
       td.long_leg_symbol_str = (pairLong first ev.ord).symbol ∧
       td.net_cost = pairNetCost first ev.ord) := by
  cases e with
  | tick d pf rolls en =>
      left
      simp only [stepEvent] at h
      rw [execute_strategy_open_eq] at h
      exact h
  | orderEvent d pf ev =>
      simp only [stepEvent] at h
      by_cases htag : ev.ord.tag = ""
      · left
        simpa [on_order_event, htag] using h
      · by_cases hcan : (ev.status = OrderStat.canceled ∨ ev.status = OrderStat.invalid)
        · left
          simpa [on_order_event, htag, hcan] using h
        · by_cases hfil : ev.status = OrderStat.filled
          · by_cases hmem : ev.ord.tag ∈ st.pending_entry_symbols
            · simp only [on_order_event, if_neg htag, if_neg hcan, hfil,
                ne_eq, not_true_eq_false, if_false, if_pos hmem] at h
              rcases handle_entry_fill_open_lookup cfg pf d st ev.ord k td h with
                hold | ⟨first, h1, h2, h3, h4⟩
              · left
                exact hold
              · right
                exact ⟨d, pf, ev, first, rfl, hfil, h1, h2, h3, h4⟩
            · by_cases hop : (lookupKey ev.ord.tag st.open_spreads).isSome
              · simp only [on_order_event, if_neg htag, if_neg hcan, hfil,
                  ne_eq, not_true_eq_false, if_false, if_neg hmem, if_pos hop] at h
                left
                exact handle_exit_fill_open_lookup pf st ev.ord.tag k td h
              · left
                simpa [on_order_event, htag, hcan, hfil, hmem, hop] using h
          · left
            simpa [on_order_event, htag, hcan, hfil] using h

/-- Witness for C3: a cancel step on the demo ledger keeps the open
spread, and the theorem attributes it to the already-present entry. -/
theorem open_spread_needs_both_legs_witness :
    lookupKey "S" demoOpenSt.open_spreads =
      some (⟨-(1/2), "L"⟩ : SpreadData) ∨
    (∃ (d : ℕ) (pf2 : Portfolio) (ev : OrderEvent) (first : Order),
       Event.orderEvent 7 demoPf ⟨advOrder, OrderStat.canceled⟩ =
         Event.orderEvent d pf2 ev ∧
       ev.status = OrderStat.filled ∧
       lookupKey ev.ord.tag demoOpenSt.pending_fills = some first ∧
       "S" = (pairShort first ev.ord).symbol ∧
       (⟨-(1/2), "L"⟩ : SpreadData).long_leg_symbol_str =
         (pairLong first ev.ord).symbol ∧
       (⟨-(1/2), "L"⟩ : SpreadData).net_cost = pairNetCost first ev.ord) :=
  open_spread_needs_both_legs demoCfg demoOpenSt
    (Event.orderEvent 7 demoPf ⟨advOrder, OrderStat.canceled⟩) "S"
    ⟨-(1/2), "L"⟩ (by decide)

/-! ### Claim C9: one entry per day -/

/-- Counterexample to claim C9: on day 5 the first tick submits the entry
tagged "SP45"; the spread has not filled, so the second tick of the same
day does not skip the entry path — it submits the entry tagged "SP50",
leaving two pending entries created by two entry attempts on one trading
day. -/
theorem one_entry_per_day_cex :
    (runEvents demoCfg initialState
        [Event.tick 5 demoPf demoRolls demoEntry]).pending_entry_symbols =
      {"SP45"} ∧
    (runEvents demoCfg initialState
        [Event.tick 5 demoPf demoRolls demoEntry,
         Event.tick 5 demoPf demoRolls demoEntry2]).pending_entry_symbols =
      {"SP45", "SP50"} ∧
    (stepEvent demoCfg
        (runEvents demoCfg initialState [Event.tick 5 demoPf demoRolls demoEntry])
        (Event.tick 5 demoPf demoRolls demoEntry2)).2 =
      [BrokerAction.limitOrder "SP50" (-40) (3/2) "SP50",
       BrokerAction.limitOrder "LP48" 40 (3/10) "SP50"] :=
  ⟨by decide, by decide, by decide⟩

/-- Ledger carrying a stamp that a spread opened on day 5. -/
def stampedSt : AlgoState := ⟨[], ∅, [], some 5⟩

/-- First fill of a healthy put spread: short "S" sold at 3.00. -/
def goodFirst : Order := ⟨"S", OptRight.put, OrderDirection.sell, 3, "S"⟩

/-- Second fill of the healthy spread: long "L" bought at 1.00 (net credit
2.00). -/
def goodOrder : Order := ⟨"L", OptRight.put, OrderDirection.buy, 1, "S"⟩

/-- Ledger awaiting the healthy second fill. -/
def goodSt : AlgoState := ⟨[], {"S"}, [("S", goodFirst)], none⟩

/-- Amended claim C9: what the code enforces is at most one spread
*opening* per day, not one entry attempt — whenever
`handle_spread_entry_fill` changes `open_spreads` (a spread was opened) it
stamps `last_trade_date` with the current day, and every tick whose day
equals `last_trade_date` skips the entry path, leaving the ledger state
unchanged.  Entry attempts that have not completed into an open spread do
not suppress further attempts the same day. -/
theorem entry_skipped_after_open (cfg : Config) (pf : Portfolio) (d : ℕ)
    (st : AlgoState) :
    (∀ o : Order,
        (handle_spread_entry_fill cfg pf d st o).1.open_spreads ≠
          st.open_spreads →
        (handle_spread_entry_fill cfg pf d st o).1.last_trade_date = some d) ∧
    (∀ (today : ℕ) (rolls : String → RollInfo) (e : EntryData),
        st.last_trade_date = some today →
        (stepEvent cfg st (Event.tick today pf rolls e)).1 = st) := by
  constructor
  · intro o hch
    cases hl : lookupKey o.tag st.pending_fills with
    | none =>
        exact absurd (by simp [handle_spread_entry_fill, hl]) hch
    | some first =>
        by_cases hc : first.right = OptRight.call
        · simp only [handle_spread_entry_fill, hl, hc, if_true]
        · by_cases hneg : ((if o.direction = OrderDirection.sell then o else first).price -
              (if o.direction = OrderDirection.buy then o else first).price ≤ 0)
          · refine absurd ?_ hch
            simp only [handle_spread_entry_fill, hl, if_neg hc, if_pos hneg]
          · simp only [handle_spread_entry_fill, hl, if_neg hc, if_neg hneg]
  · intro today rolls e hdate
    simp only [stepEvent, execute_strategy]
    rw [if_pos hdate]

/-- Witness for the amended C9: the healthy second fill opens the spread
and stamps day 7, and a tick on the stamped day changes nothing. -/
theorem entry_skipped_after_open_witness :
    (handle_spread_entry_fill demoCfg demoPf 7 goodSt goodOrder).1.last_trade_date =
      some 7 ∧
    (stepEvent demoCfg stampedSt (Event.tick 5 demoPf demoRolls demoEntry)).1 =
      stampedSt :=
  ⟨(entry_skipped_after_open demoCfg demoPf 7 goodSt).1 goodOrder (by decide),
   (entry_skipped_after_open demoCfg demoPf 7 stampedSt).2 5 demoRolls demoEntry
     (by decide)⟩

end ConcreteEvaluation

end CSP
